import Mathlib

/-!
Verification development for the `bms-table-loader` library.

The definitions below are a shallow embedding of `src/main.ts`: JSON values
decoded by the runtime are modelled by the inductive `Json`, JavaScript
objects by association lists of fields, and each function of the source is
translated into an executable Lean function of the same name.
-/

set_option autoImplicit false

/-- A decoded JSON value, as produced by the runtime decoder.  Numbers are
modelled by rationals; the source only parses and compares them, so the
idealisation from IEEE doubles is irrelevant to every statement below. -/
inductive Json where
  | null : Json
  | bool (b : Bool) : Json
  | num (q : Rat) : Json
  | str (s : String) : Json
  | arr (elems : List Json) : Json
  | obj (fields : List (String × Json)) : Json

/-- Property access `rec.k` on a JavaScript object: the value of the first
field named `k`, or `none` for JavaScript's `undefined` when absent. -/
def getField (fields : List (String × Json)) (k : String) : Option Json :=
  match fields with
  | [] => none
  | (k', v) :: rest => if k' = k then some v else getField rest k

/-- JavaScript's `typeof` operator on a decoded JSON value
(`typeof null` is `"object"`). -/
def jsTypeof (j : Json) : String :=
  match j with
  | .null => "object"
  | .bool _ => "boolean"
  | .num _ => "number"
  | .str _ => "string"
  | .arr _ => "object"
  | .obj _ => "object"

/-! ## Body normalisation (`ExtractBMSBody`, src/main.ts lines 191-247) -/

/-- Length of an md5 hex digest (`LEN_MD5_HEX_HASH` in the source). -/
def LEN_MD5_HEX_HASH : Nat := 32

/-- Length of a sha256 hex digest (`LEN_SHA256_HEX_HASH` in the source). -/
def LEN_SHA256_HEX_HASH : Nat := 64

/-- The check `typeof rec.level !== "number" && typeof rec.level !== "string"`
(negated): true when the `level` property is a number or a string. -/
def levelOk (fields : List (String × Json)) : Bool :=
  match getField fields "level" with
  | some (.num _) => true
  | some (.str _) => true
  | _ => false

/-- The md5 test of the source (negation of
`typeof rec.md5 !== "string" || rec.md5.length !== LEN_MD5_HEX_HASH`):
the `md5` property is a string of exactly 32 characters. -/
def md5Ok (fields : List (String × Json)) : Bool :=
  match getField fields "md5" with
  | some (.str s) => s.length = LEN_MD5_HEX_HASH
  | _ => false

/-- The sha256 test of the source: the `sha256` property is a string of
exactly 64 characters. -/
def sha256Ok (fields : List (String × Json)) : Bool :=
  match getField fields "sha256" with
  | some (.str s) => s.length = LEN_SHA256_HEX_HASH
  | _ => false

/-- Whether one element of the decoded body array survives the per-entry
checks of `ExtractBMSBody`: it must not be `null`, must be an object (not an
array), its `level` must be a number or string, and it must pass the md5
test or, failing that, the sha256 test. -/
def keepEntry (entry : Json) : Bool :=
  match entry with
  | .obj fields => levelOk fields && (md5Ok fields || sha256Ok fields)
  | _ => false

/-- The `for (const entry of rawData)` loop of `ExtractBMSBody`: entries
passing the checks are pushed onto the result in source order, the rest are
skipped by `continue`. -/
def extractLoop (rawData : List Json) : List Json :=
  match rawData with
  | [] => []
  | entry :: rest =>
    if keepEntry entry then entry :: extractLoop rest else extractLoop rest

/-- Error raised by `ExtractBMSBody` when the decoded body is not an array;
it carries the `typeof` string interpolated into the message
`Invalid body.json -- got ... instead of an array.`. -/
inductive BodyErr where
  | notArray (observedType : String) : BodyErr
deriving DecidableEq

/-- Translation of `ExtractBMSBody` (src/main.ts lines 191-247). -/
def ExtractBMSBody (rawData : Json) : Except BodyErr (List Json) :=
  match rawData with
  | .arr elems => .ok (extractLoop elems)
  | other => .error (.notArray (jsTypeof other))

/-- The identity scheme resolved for a kept entry, following the branch
structure of the md5/sha256 checks in `ExtractBMSBody` (lines 219-243):
a 32-character string `md5` wins, otherwise a 64-character string `sha256`. -/
inductive ChecksumIdentity where
  | md5 (value : String) : ChecksumIdentity
  | sha256 (value : String) : ChecksumIdentity
deriving DecidableEq

/-- The sha256 arm of the fallback chain: entered exactly when the md5 test
of `ExtractBMSBody` has failed. -/
def sha256Fallback (fields : List (String × Json)) : Option ChecksumIdentity :=
  match getField fields "sha256" with
  | some (.str t) => if t.length = LEN_SHA256_HEX_HASH then some (.sha256 t) else none
  | _ => none

/-- Identity resolution for an entry's fields, mirroring the fixed md5-first
fallback chain of `ExtractBMSBody`. -/
def resolveIdentity (fields : List (String × Json)) : Option ChecksumIdentity :=
  match getField fields "md5" with
  | some (.str s) =>
    if s.length = LEN_MD5_HEX_HASH then some (.md5 s) else sha256Fallback fields
  | _ => sha256Fallback fields

/-- A string made of hexadecimal digits only — the predicate the
specification uses to describe a valid digest. -/
def isHexString (s : String) : Bool :=
  s.data.all fun c => c.isDigit || ( 'a' ≤ c && c ≤ 'f') || ( 'A' ≤ c && c ≤ 'F')

/-! ## The `BMSTable` class and `getLevelOrder` (src/main.ts lines 68-104) -/

/-- A level value as declared by the TypeScript types: `number | string`. -/
inductive LevelVal where
  | num (q : Rat) : LevelVal
  | str (s : String) : LevelVal
deriving DecidableEq

/-- The `BMSTableHead` interface: required strings, two optional level
arrays (`undefined` modelled by `none`), and arbitrary undocumented extra
properties. -/
structure BMSTableHead where
  name : String
  symbol : String
  data_url : String
  levels : Option (List LevelVal)
  level_order : Option (List LevelVal)
  extra : List (String × Json)

/-- A `BMSTableEntry` as typed in the source: a `level` that is a number or
a string, plus the full original object (`fields`, which also contains the
`level` and checksum properties). -/
structure BMSTableEntry where
  level : LevelVal
  fields : List (String × Json)

/-- The `BMSTable` class: an exposed `head` and `body`. -/
structure BMSTable where
  head : BMSTableHead
  body : List BMSTableEntry

/-- The sniffing loop of `getLevelOrder`: walk the body in order and push
each `chart.level` onto `levels` the first time it is seen
(`levels.includes` uses type-sensitive SameValueZero equality, which
`DecidableEq LevelVal` mirrors). -/
def levelLoop (levels : List LevelVal) (charts : List LevelVal) : List LevelVal :=
  match charts with
  | [] => levels
  | c :: rest =>
    if c ∈ levels then levelLoop levels rest else levelLoop (levels ++ [c]) rest

/-- Translation of `BMSTable.getLevelOrder`.  In the source the guards are
`if (this.head.levels)` and `if (this.head.level_order)`: for a field typed
`Array<number | string> | undefined` JavaScript truthiness is exactly
presence, because every array object — the empty array included — is
truthy and `undefined` is falsy. -/
def BMSTable.getLevelOrder (t : BMSTable) : List LevelVal :=
  match t.head.levels with
  | some ls => ls
  | none =>
    match t.head.level_order with
    | some ls => ls
    | none => levelLoop [] (t.body.map (·.level))

/-- Distinct values in order of first appearance, written from the
specification's words ("the distinct `level` values of the normalized body
in first-seen order") as an independent structural recursion, to be
compared with the accumulator loop of the source. -/
def firstSeenDistinct (ls : List LevelVal) : List LevelVal :=
  match ls with
  | [] => []
  | x :: rest => x :: firstSeenDistinct (rest.filter (fun y => y ≠ x))
termination_by ls.length
decreasing_by
  simp only [List.length_cons]
  exact Nat.lt_succ_of_le (List.length_filter_le _ _)

/-! ## Header validation (`HEAD_SCHEMA`, src/main.ts lines 106-112) -/

/-- Whether a JSON value is accepted by `z.union([z.number(), z.string()])`. -/
def isNumOrStr (j : Json) : Bool :=
  match j with
  | .num _ => true
  | .str _ => true
  | _ => false

/-- Whether an optional field is accepted by
`z.optional(z.array(z.union([z.number(), z.string()])))`: absent, or an
array whose every element is a number or a string. -/
def optLevelsOk (fields : List (String × Json)) (k : String) : Bool :=
  match getField fields k with
  | none => true
  | some (.arr xs) => xs.all isNumOrStr
  | some _ => false

/-- Whether a required field is accepted by `z.string()`. -/
def strFieldOk (fields : List (String × Json)) (k : String) : Bool :=
  match getField fields k with
  | some (.str _) => true
  | _ => false

/-- Translation of `HEAD_SCHEMA.safeParse(...).success`: the zod object
schema accepts only objects (not `null` and not arrays), requires string
fields `name`, `symbol` and `data_url`, constrains `levels` and
`level_order` when present, and ignores every other field. -/
def HEAD_SCHEMA (j : Json) : Bool :=
  match j with
  | .obj fields =>
    strFieldOk fields "name" && strFieldOk fields "symbol" && strFieldOk fields "data_url" &&
      optLevelsOk fields "levels" && optLevelsOk fields "level_order"
  | _ => false

/-! ## The decoded phase of `LoadBMSTable` (src/main.ts lines 151-170) -/

/-- Errors of the decoded phase of `LoadBMSTable`: the
`Invalid head.json: ...` throw and the propagated `ExtractBMSBody` throw. -/
inductive LoadErr where
  | invalidHead : LoadErr
  | bodyErr (e : BodyErr) : LoadErr

/-- The value returned by `LoadBMSTable`, at the raw-JSON level: the class
stores the parsed `headerJSON` object itself (not the zod parse output) and
the `ExtractBMSBody` result. -/
structure RawTable where
  head : Json
  body : List Json

/-- Translation of `LoadBMSTable` after both documents are decoded
(src/main.ts lines 151-170): validate the header with `HEAD_SCHEMA`,
throw on failure, then normalise the body and construct the table from the
original `headerJSON`. -/
def LoadBMSTable (headerJSON bodyJSON : Json) : Except LoadErr RawTable :=
  if HEAD_SCHEMA headerJSON then
    match ExtractBMSBody bodyJSON with
    | .ok body => .ok ⟨headerJSON, body⟩
    | .error e => .error (.bodyErr e)
  else
    .error .invalidHead

/-! ## The retrying fetcher (`FetchWithRetry`, src/main.ts lines 303-324) -/

/-- An HTTP response: its status code and its text.  The network is
modelled by the sequence of responses the server would give to the
successive attempts. -/
structure Response where
  status : Nat
  text : String
deriving DecidableEq

/-- Errors thrown by `FetchWithRetry`: the `Attempted to fetch ... with 0
retries` throw (no response was ever recorded) and the
`Failed to fetch ...: status` throw carrying the last observed status. -/
inductive FetchErr where
  | zeroRetries (url : String) : FetchErr
  | failed (url : String) (status : Nat) : FetchErr
deriving DecidableEq

/-- The `while (tries < retryCount)` loop of `FetchWithRetry`, with
`remaining = retryCount - tries` as the recursion measure and `lastRes`
threading the last non-200 response. -/
def fetchLoop (responses : Nat → Response) (url : String) (tries remaining : Nat)
    (lastRes : Option Response) : Except FetchErr Response :=
  match remaining with
  | 0 =>
    match lastRes with
    | none => .error (.zeroRetries url)
    | some r => .error (.failed url r.status)
  | n + 1 =>
    let res := responses tries
    if res.status = 200 then .ok res else fetchLoop responses url (tries + 1) n (some res)

/-- Translation of `FetchWithRetry` (src/main.ts lines 303-324); the
`retryCount` parameter defaults to 3 at every call site in the source. -/
def FetchWithRetry (responses : Nat → Response) (url : String) (retryCount : Nat := 3) :
    Except FetchErr Response :=
  fetchLoop responses url 0 retryCount none

/-! ## The lenient decoder (`BrokenBMSJSONParse`, src/main.ts lines 343-351) -/

/-- The `str.startsWith("﻿")` test; text is modelled as `List Char`. -/
def startsWithBOM (str : List Char) : Bool :=
  match str with
  | c :: _ => c = '﻿'
  | [] => false

/-- Translation of `BrokenBMSJSONParse`, parameterised by the underlying
decoder.  In the source `str.replace("﻿", "")` removes the first
occurrence of the byte-order mark; guarded by `startsWith`, that is exactly
the leading character, hence `drop 1`. -/
def BrokenBMSJSONParse (parse : List Char → Option Json) (str : List Char) : Option Json :=
  let cleanStr := if startsWithBOM str then str.drop 1 else str
  parse cleanStr

/-- A JSON whitespace character (RFC 8259: space, tab, line feed, carriage
return).  The byte-order mark is not among them. -/
def jsonWsChar (c : Char) : Bool :=
  c = ' ' || c = '\t' || c = '\n' || c = '\r'

/-- Skip leading JSON whitespace. -/
def skipJsonWs (cs : List Char) : List Char :=
  match cs with
  | [] => []
  | c :: rest => if jsonWsChar c then skipJsonWs rest else c :: rest

/-- Digits to a natural number. -/
def digitsToNat (ds : List Char) : Nat :=
  ds.foldl (fun n c => n * 10 + (c.toNat - '0'.toNat)) 0

/-- Parse a JSON number (optional minus, digits, optional fraction). -/
def parseNum (cs : List Char) : Option (Rat × List Char) :=
  let p := match cs with
    | '-' :: r => (true, r)
    | _ => (false, cs)
  let ds := p.2.takeWhile (·.isDigit)
  let cs2 := p.2.dropWhile (·.isDigit)
  if ds.isEmpty then none
  else
    let intPart : Rat := (digitsToNat ds : Nat)
    match cs2 with
    | '.' :: r =>
      let fs := r.takeWhile (·.isDigit)
      let cs3 := r.dropWhile (·.isDigit)
      if fs.isEmpty then none
      else
        let q := intPart + (digitsToNat fs : Rat) / ((10 : Rat) ^ fs.length)
        some (if p.1 then -q else q, cs3)
    | _ => some (if p.1 then -intPart else intPart, cs2)

/-- Parse the remainder of a JSON string after its opening quote, returning
the string's characters and the rest of the input. -/
def parseStringRest (cs : List Char) : Option (List Char × List Char) :=
  match cs with
  | [] => none
  | c :: rest =>
    if c = '"' then some ([], rest)
    else if c = '\\' then none
    else (parseStringRest rest).map (fun pr => (c :: pr.1, pr.2))

/-- Parse one JSON value; `fuel` bounds the recursion and every recursive
call strictly shrinks the remaining input, so `length + 1` fuel always
suffices.  A list tail after a comma is re-fed with its opening bracket so
that the recursion stays structural in `fuel`. -/
def parseValue : Nat → List Char → Option (Json × List Char)
  | 0, _ => none
  | fuel + 1, cs =>
    match skipJsonWs cs with
    | 'n' :: 'u' :: 'l' :: 'l' :: r => some (.null, r)
    | 't' :: 'r' :: 'u' :: 'e' :: r => some (.bool true, r)
    | 'f' :: 'a' :: 'l' :: 's' :: 'e' :: r => some (.bool false, r)
    | '"' :: r => (parseStringRest r).map (fun pr => (.str (String.mk pr.1), pr.2))
    | '[' :: r =>
      (match skipJsonWs r with
       | ']' :: r2 => some (.arr [], r2)
       | r1 =>
         (parseValue fuel r1).bind fun vr =>
           match skipJsonWs vr.2 with
           | ',' :: r2 =>
             (parseValue fuel ('[' :: r2)).bind fun ar =>
               match ar.1 with
               | .arr vs => some (.arr (vr.1 :: vs), ar.2)
               | _ => none
           | ']' :: r2 => some (.arr [vr.1], r2)
           | _ => none)
    | '{' :: r =>
      (match skipJsonWs r with
       | '}' :: r2 => some (.obj [], r2)
       | '"' :: rk =>
         (parseStringRest rk).bind fun kr =>
           match skipJsonWs kr.2 with
           | ':' :: rv =>
             (parseValue fuel rv).bind fun vr =>
               match skipJsonWs vr.2 with
               | ',' :: r2 =>
                 (parseValue fuel ('{' :: r2)).bind fun orr =>
                   match orr.1 with
                   | .obj ms => some (.obj ((String.mk kr.1, vr.1) :: ms), orr.2)
                   | _ => none
               | '}' :: r2 => some (.obj [(String.mk kr.1, vr.1)], r2)
               | _ => none
           | _ => none
       | _ => none)
    | cs1 => (parseNum cs1).map (fun pr => (.num pr.1, pr.2))

/-- Modelled from the spec: the external generic structured-document decoder
(`JSON.parse`), which is not part of this repository.  Following the
specification, it "decode[s] the remaining text as a generic structured
document" and fails on text that is not syntactically valid; in particular a
byte-order mark is not JSON whitespace ("byte-order markers are invalid in
this wire format by specification"), so text beginning with one is
rejected.  String escape sequences and exponents are outside the modelled
grammar fragment; no statement below depends on them. -/
def JSONParse (str : List Char) : Option Json :=
  (parseValue (str.length + 1) str).bind fun vr =>
    match skipJsonWs vr.2 with
    | [] => some vr.1
    | _ => none

/-! ## The pointer extractor (`ReadMetaTag`, src/main.ts lines 286-294) -/

/-- A JavaScript line terminator: the characters the regex metacharacter
`.` does not match (the `s` flag is absent in the source). -/
def lineTerm (c : Char) : Bool :=
  c = '\n' || c = '\r' || c = ' ' || c = ' '

/-- A character of the JavaScript regex class `\s` (whitespace, including
the no-break space, the byte-order mark and the Unicode space separators). -/
def jsRegexWs (c : Char) : Bool :=
  c = ' ' || c = '\t' || c = '\n' || c = '\r' || c = '\u000B' || c = '\u000C' ||
    c = ' ' || c = '﻿' || c = ' ' || ( ' ' ≤ c && c ≤ ' ') ||
    c = ' ' || c = ' ' || c = ' ' || c = ' ' || c = '　'

/-- Match a literal character sequence and return the rest of the input. -/
def dropLit (pat s : List Char) : Option (List Char) :=
  match pat, s with
  | [], rest => some rest
  | _ :: _, [] => none
  | p :: ps, c :: cs => if c = p then dropLit ps cs else none

/-- Drop a maximal run of `\s` characters. -/
def dropWsRun (s : List Char) : List Char :=
  match s with
  | [] => []
  | c :: rest => if jsRegexWs c then dropWsRun rest else c :: rest

/-- The regex piece `[\s]+`: at least one whitespace character, then the
maximal run (backtracking to a shorter run cannot help, because the
following literal starts with `n`, which is not whitespace). -/
def dropWs1 (s : List Char) : Option (List Char) :=
  match s with
  | [] => none
  | c :: rest => if jsRegexWs c then some (dropWsRun rest) else none

/-- The capturing piece `(.*?)"`: the characters up to the first quote,
none of which may be a line terminator. -/
def scanCapture (s : List Char) : Option (List Char) :=
  match s with
  | [] => none
  | c :: rest =>
    if c = '"' then some []
    else if lineTerm c then none
    else (scanCapture rest).map (c :: ·)

/-- The regex piece `.*?="(.*?)"`: lazily scan (never across a line
terminator) for the first `="` whose capture completes; on a failed capture
the `=` itself is consumed by `.*?` (it is not a terminator) and the scan
continues. -/
def scanValue (s : List Char) : Option (List Char) :=
  match s with
  | [] => none
  | c :: rest =>
    if c = '=' then
      match rest with
      | '"' :: rest2 =>
        (match scanCapture rest2 with
         | some v => some v
         | none => scanValue rest)
      | _ => if lineTerm c then none else scanValue rest
    else if lineTerm c then none else scanValue rest

/-- The marker part of the regex, `<meta[\s]+name="bmstable"`: the literal
`<meta`, at least one whitespace character, then the literal attribute. -/
def markerCheck (s : List Char) : Option (List Char) :=
  (dropLit "<meta".data s).bind fun s1 =>
    (dropWs1 s1).bind fun s2 => dropLit "name=\"bmstable\"".data s2

/-- Attempt to match the whole regex
`<meta[\s]+name="bmstable".*?="(.*?)"` at the start of `s`, returning the
capture group. -/
def tryMatchAt (s : List Char) : Option (List Char) :=
  (markerCheck s).bind fun s3 => scanValue s3

/-- Translation of `ReadMetaTag`: `RegExp.exec` returns the leftmost match,
so the starting positions are tried in order and the first full match wins. -/
def ReadMetaTag (html : List Char) : Option (List Char) :=
  match html with
  | [] => none
  | c :: rest =>
    match tryMatchAt (c :: rest) with
    | some v => some v
    | none => ReadMetaTag rest

/-! ## The HTML branch of `LoadBMSTable` (src/main.ts lines 133-139) -/

/-- The message of the throw at src/main.ts line 136. -/
def noTagMessage (url : List Char) : List Char :=
  url ++ " returned HTML, but had no readable bmstable tag. Cannot parse table.".data

/-- Translation of the HTML branch of `LoadBMSTable`: extract the pointer
and fail when there is none.  The guard in the source is `if (!bmstable)`,
so an empty capture — a falsy string — also fails. -/
def LoadBMSTableHtml (url html : List Char) : Except (List Char) (List Char) :=
  match ReadMetaTag html with
  | some (c :: cs) => .ok (c :: cs)
  | some [] => .error (noTagMessage url)
  | none => .error (noTagMessage url)

/-! ## Helper lemmas about the body normalizer -/

theorem extractLoop_eq_filter (l : List Json) : extractLoop l = l.filter keepEntry := by
  induction l with
  | nil => rfl
  | cons e rest ih =>
    by_cases h : keepEntry e = true
    · simp [extractLoop, h, List.filter, ih]
    · simp only [Bool.not_eq_true] at h
      simp [extractLoop, h, List.filter, ih]

theorem md5Ok_iff (fields : List (String × Json)) :
    md5Ok fields = true ↔
      ∃ v, getField fields "md5" = some (.str v) ∧ v.length = LEN_MD5_HEX_HASH := by
  unfold md5Ok
  rcases hm : getField fields "md5" with _ | j
  · simp
  · cases j <;> simp [hm]

theorem sha256Ok_iff (fields : List (String × Json)) :
    sha256Ok fields = true ↔
      ∃ v, getField fields "sha256" = some (.str v) ∧ v.length = LEN_SHA256_HEX_HASH := by
  unfold sha256Ok
  rcases hm : getField fields "sha256" with _ | j
  · simp
  · cases j <;> simp [hm]

theorem levelOk_iff (fields : List (String × Json)) :
    levelOk fields = true ↔
      ∃ lv, getField fields "level" = some lv ∧
        ((∃ q, lv = .num q) ∨ (∃ s, lv = .str s)) := by
  unfold levelOk
  rcases hm : getField fields "level" with _ | j
  · simp
  · cases j <;> simp [hm]

theorem resolveIdentity_of_md5Ok (fields : List (String × Json)) (h : md5Ok fields = true) :
    ∃ v, getField fields "md5" = some (.str v) ∧ v.length = LEN_MD5_HEX_HASH ∧
      resolveIdentity fields = some (.md5 v) := by
  rcases (md5Ok_iff fields).mp h with ⟨v, hv, hlen⟩
  exact ⟨v, hv, hlen, by simp [resolveIdentity, hv, hlen]⟩

theorem sha256Fallback_of_ok (fields : List (String × Json)) (h : sha256Ok fields = true) :
    ∃ v, getField fields "sha256" = some (.str v) ∧ v.length = LEN_SHA256_HEX_HASH ∧
      sha256Fallback fields = some (.sha256 v) := by
  rcases (sha256Ok_iff fields).mp h with ⟨v, hv, hlen⟩
  exact ⟨v, hv, hlen, by simp [sha256Fallback, hv, hlen]⟩

theorem sha256Fallback_of_not_ok (fields : List (String × Json)) (h : sha256Ok fields = false) :
    sha256Fallback fields = none := by
  unfold sha256Fallback
  rcases hn : getField fields "sha256" with _ | j
  · simp
  · cases j <;> simp [hn]
    case str t =>
      intro hc
      have : sha256Ok fields = true := (sha256Ok_iff fields).mpr ⟨t, hn, hc⟩
      simp [this] at h

theorem resolveIdentity_of_not_md5Ok (fields : List (String × Json))
    (hmd : md5Ok fields = false) : resolveIdentity fields = sha256Fallback fields := by
  unfold resolveIdentity
  rcases hm : getField fields "md5" with _ | j
  · simp
  · cases j <;> simp [hm]
    case str s =>
      intro hc
      have : md5Ok fields = true := (md5Ok_iff fields).mpr ⟨s, hm, hc⟩
      simp [this] at hmd

theorem resolveIdentity_of_sha256Ok (fields : List (String × Json))
    (hmd : md5Ok fields = false) (h : sha256Ok fields = true) :
    ∃ v, getField fields "sha256" = some (.str v) ∧ v.length = LEN_SHA256_HEX_HASH ∧
      resolveIdentity fields = some (.sha256 v) := by
  rcases sha256Fallback_of_ok fields h with ⟨v, hv, hlen, hres⟩
  exact ⟨v, hv, hlen, by rw [resolveIdentity_of_not_md5Ok fields hmd, hres]⟩

theorem resolveIdentity_none (fields : List (String × Json))
    (hmd : md5Ok fields = false) (hsha : sha256Ok fields = false) :
    resolveIdentity fields = none := by
  rw [resolveIdentity_of_not_md5Ok fields hmd, sha256Fallback_of_not_ok fields hsha]

/-! ## Claim C6 -/

/-- C6: body normalization raises an error if and only if the decoded body
value is not an array, and the error names the actual observed `typeof`;
given any array it never raises — every element may be excluded — and an
array whose every element is excluded yields the empty normalized body with
no error. -/
theorem extract_body_error_iff :
    (∀ j : Json, (∃ e, ExtractBMSBody j = .error e) ↔ ∀ l, j ≠ .arr l) ∧
    (∀ j : Json, (∀ l, j ≠ .arr l) → ExtractBMSBody j = .error (.notArray (jsTypeof j))) ∧
    (∀ l : List Json, ExtractBMSBody (.arr l) = .ok (extractLoop l)) ∧
    (∀ l : List Json, (∀ e ∈ l, keepEntry e = false) → ExtractBMSBody (.arr l) = .ok []) := by
  refine ⟨?_, ?_, ?_, ?_⟩
  · intro j
    constructor
    · rintro ⟨e, he⟩ l rfl
      simp [ExtractBMSBody] at he
    · intro h
      cases j with
      | arr l => exact absurd rfl (h l)
      | null => exact ⟨_, rfl⟩
      | bool b => exact ⟨_, rfl⟩
      | num q => exact ⟨_, rfl⟩
      | str s => exact ⟨_, rfl⟩
      | obj fields => exact ⟨_, rfl⟩
  · intro j h
    cases j with
    | arr l => exact absurd rfl (h l)
    | null => rfl
    | bool b => rfl
    | num q => rfl
    | str s => rfl
    | obj fields => rfl
  · intro l
    rfl
  · intro l h
    have : extractLoop l = [] := by
      rw [extractLoop_eq_filter]
      exact List.filter_eq_nil_iff.mpr (fun a ha => by simp [h a ha])
    simp [ExtractBMSBody, this]

/-- Witness for C6: a string body fails with its observed type, and an array
of only unusable elements yields an empty body without error. -/
theorem extract_body_error_iff_witness :
    ExtractBMSBody (.str "oops") = .error (.notArray "string") ∧
    ExtractBMSBody (.arr [.null, .str "x", .arr []]) = .ok [] := by
  constructor
  · exact extract_body_error_iff.2.1 (.str "oops") (fun l h => Json.noConfusion h)
  · refine extract_body_error_iff.2.2.2 _ ?_
    intro e he
    fin_cases he <;> rfl

/-! ## Claim C1 -/

/-- C1 counterexample: the source tests only the length of the `md5`
string, not that its characters are hexadecimal.  An entry whose `md5` is
thirty-two `z` characters is kept and resolves to an md5 identity, although
the claim — requiring 32 *hexadecimal* characters — says it must not. -/
theorem md5_hex_counterexample :
    ExtractBMSBody
        (.arr [.obj [("level", .str "1"), ("md5", .str "zzzzzzzzzzzzzzzzzzzzzzzzzzzzzzzz")]]) =
      .ok [.obj [("level", .str "1"), ("md5", .str "zzzzzzzzzzzzzzzzzzzzzzzzzzzzzzzz")]] ∧
    resolveIdentity [("level", .str "1"), ("md5", .str "zzzzzzzzzzzzzzzzzzzzzzzzzzzzzzzz")] =
      some (.md5 "zzzzzzzzzzzzzzzzzzzzzzzzzzzzzzzz") ∧
    isHexString "zzzzzzzzzzzzzzzzzzzzzzzzzzzzzzzz" = false := by
  refine ⟨rfl, rfl, rfl⟩

/-- C1 (amended): for every decoded body element that is a non-array object
whose `level` is a number or a string, the element is kept with an md5
identity if and only if its `md5` field is a string of exactly 32
characters (only the length is checked); if the `md5` field fails that
test, it is kept with a sha256 identity if and only if its `sha256` field
is a string of exactly 64 characters; if neither holds it is dropped.  The
fallback order is fixed: a valid `md5` wins even when a valid `sha256` is
also present. -/
theorem body_identity_resolution (fields : List (String × Json))
    (hlevel : levelOk fields = true) :
    ((∃ v, getField fields "md5" = some (.str v) ∧ v.length = 32) →
      keepEntry (.obj fields) = true ∧
        ∃ v, getField fields "md5" = some (.str v) ∧
          resolveIdentity fields = some (.md5 v)) ∧
    ((∀ v, getField fields "md5" = some (.str v) → v.length ≠ 32) →
      (((∃ v, getField fields "sha256" = some (.str v) ∧ v.length = 64) →
        keepEntry (.obj fields) = true ∧
          ∃ v, getField fields "sha256" = some (.str v) ∧
            resolveIdentity fields = some (.sha256 v)) ∧
       ((∀ v, getField fields "sha256" = some (.str v) → v.length ≠ 64) →
        keepEntry (.obj fields) = false ∧ extractLoop [.obj fields] = [] ∧
          resolveIdentity fields = none))) := by
  constructor
  · rintro ⟨v, hv, hlen⟩
    have hok : md5Ok fields = true := (md5Ok_iff fields).mpr ⟨v, hv, hlen⟩
    rcases resolveIdentity_of_md5Ok fields hok with ⟨w, hw, hwlen, hres⟩
    exact ⟨by simp [keepEntry, hlevel, hok], w, hw, hres⟩
  · intro hmd
    have hok : md5Ok fields = false := by
      rcases h : md5Ok fields with _ | _
      · rfl
      · rcases (md5Ok_iff fields).mp h with ⟨v, hv, hlen⟩
        exact absurd hlen (hmd v hv)
    constructor
    · rintro ⟨v, hv, hlen⟩
      have hsok : sha256Ok fields = true := (sha256Ok_iff fields).mpr ⟨v, hv, hlen⟩
      rcases resolveIdentity_of_sha256Ok fields hok hsok with ⟨w, hw, hwlen, hres⟩
      exact ⟨by simp [keepEntry, hlevel, hok, hsok], w, hw, hres⟩
    · intro hsha
      have hsok : sha256Ok fields = false := by
        rcases h : sha256Ok fields with _ | _
        · rfl
        · rcases (sha256Ok_iff fields).mp h with ⟨v, hv, hlen⟩
          exact absurd hlen (hsha v hv)
      refine ⟨by simp [keepEntry, hlevel, hok, hsok], ?_, resolveIdentity_none fields hok hsok⟩
      simp [extractLoop, keepEntry, hlevel, hok, hsok]

/-- Witness for C1: the amended theorem applied to a concrete entry with a
sentinel `md5` of `"null"` and a valid-length sha256, which resolves to the
sha256 identity. -/
theorem body_identity_resolution_witness :
    keepEntry (.obj [("level", .num 1), ("md5", .str "null"),
        ("sha256", .str "769359ebb55d3d6dff3b5c6a07ec03be9b87beda1ffb0c07d7ea99590605a732")]) = true ∧
    ∃ v, getField [("level", .num 1), ("md5", .str "null"),
        ("sha256", .str "769359ebb55d3d6dff3b5c6a07ec03be9b87beda1ffb0c07d7ea99590605a732")] "sha256" =
          some (.str v) ∧
      resolveIdentity [("level", .num 1), ("md5", .str "null"),
        ("sha256", .str "769359ebb55d3d6dff3b5c6a07ec03be9b87beda1ffb0c07d7ea99590605a732")] =
          some (.sha256 v) :=
  ((body_identity_resolution _ (by rfl)).2
    (by intro v hv; injection Option.some.inj hv with h2; subst h2; decide)).1
    ⟨"769359ebb55d3d6dff3b5c6a07ec03be9b87beda1ffb0c07d7ea99590605a732", rfl, rfl⟩

/-! ## Claim C2 -/

/-- C2: the body of a returned table is the sequence of valid entries in
their source order (a filter of the decoded array: first-appearance order,
duplicates kept), and every returned entry is the original raw object
itself — so its `level` is the original number-or-string value and all
undocumented fields are intact — with a resolved identity tagged md5 or
sha256. -/
theorem table_body_normalized (h b : Json) (t : RawTable)
    (hload : LoadBMSTable h b = .ok t) :
    ∃ l, b = .arr l ∧ t.body = l.filter keepEntry ∧
      ∀ e ∈ t.body, e ∈ l ∧
        ∃ fields, e = .obj fields ∧
          (∃ c, resolveIdentity fields = some c ∧
            ((∃ v, c = .md5 v) ∨ (∃ v, c = .sha256 v))) ∧
          (∃ lv, getField fields "level" = some lv ∧
            ((∃ q, lv = .num q) ∨ (∃ s, lv = .str s))) := by
  unfold LoadBMSTable at hload
  by_cases hh : HEAD_SCHEMA h = true
  · rw [if_pos hh] at hload
    cases hb : ExtractBMSBody b with
    | error e => rw [hb] at hload; cases hload
    | ok body =>
      rw [hb] at hload
      cases hload
      cases b with
      | arr l =>
        refine ⟨l, rfl, ?_, ?_⟩
        · simpa [ExtractBMSBody, extractLoop_eq_filter] using hb.symm
        · intro e he
          have hbody : body = l.filter keepEntry := by
            simpa [ExtractBMSBody, extractLoop_eq_filter] using hb.symm
          rw [hbody] at he
          have hmem : e ∈ l := List.mem_of_mem_filter he
          have hkeep : keepEntry e = true := List.of_mem_filter he
          refine ⟨hmem, ?_⟩
          cases e with
          | obj fields =>
            simp only [keepEntry, Bool.and_eq_true, Bool.or_eq_true] at hkeep
            obtain ⟨hlv, hid⟩ := hkeep
            refine ⟨fields, rfl, ?_, ?_⟩
            · rcases hid with hmd | hsh
              · rcases resolveIdentity_of_md5Ok fields hmd with ⟨v, _, _, hres⟩
                exact ⟨_, hres, Or.inl ⟨v, rfl⟩⟩
              · rcases hmd5 : md5Ok fields with _ | _
                · rcases resolveIdentity_of_sha256Ok fields hmd5 hsh with ⟨v, _, _, hres⟩
                  exact ⟨_, hres, Or.inr ⟨v, rfl⟩⟩
                · rcases resolveIdentity_of_md5Ok fields hmd5 with ⟨v, _, _, hres⟩
                  exact ⟨_, hres, Or.inl ⟨v, rfl⟩⟩
            · exact (levelOk_iff fields).mp hlv
          | null => simp [keepEntry] at hkeep
          | bool bb => simp [keepEntry] at hkeep
          | num q => simp [keepEntry] at hkeep
          | str s => simp [keepEntry] at hkeep
          | arr l2 => simp [keepEntry] at hkeep
      | null => simp [ExtractBMSBody] at hb
      | bool bb => simp [ExtractBMSBody] at hb
      | num q => simp [ExtractBMSBody] at hb
      | str s => simp [ExtractBMSBody] at hb
      | obj fields => simp [ExtractBMSBody] at hb
  · rw [if_neg hh] at hload
    cases hload

/-- Witness for C2: a concrete load whose body document holds one valid
entry and one `null`; the theorem instantiates to the filtered body. -/
theorem table_body_normalized_witness :
    ∃ l, Json.arr [.obj [("level", .num 1), ("md5", .str "d0f497c0f955e7edfb0278f446cdb6f8")],
          .null] = Json.arr l ∧
      (⟨.obj [("name", .str "n"), ("symbol", .str "s"), ("data_url", .str "u")],
        [.obj [("level", .num 1), ("md5", .str "d0f497c0f955e7edfb0278f446cdb6f8")]]⟩ :
          RawTable).body = l.filter keepEntry ∧
      ∀ e ∈ (⟨.obj [("name", .str "n"), ("symbol", .str "s"), ("data_url", .str "u")],
        [.obj [("level", .num 1), ("md5", .str "d0f497c0f955e7edfb0278f446cdb6f8")]]⟩ :
          RawTable).body, e ∈ l ∧
        ∃ fields, e = .obj fields ∧
          (∃ c, resolveIdentity fields = some c ∧
            ((∃ v, c = .md5 v) ∨ (∃ v, c = .sha256 v))) ∧
          (∃ lv, getField fields "level" = some lv ∧
            ((∃ q, lv = .num q) ∨ (∃ s, lv = .str s))) :=
  table_body_normalized
    (.obj [("name", .str "n"), ("symbol", .str "s"), ("data_url", .str "u")])
    (.arr [.obj [("level", .num 1), ("md5", .str "d0f497c0f955e7edfb0278f446cdb6f8")], .null])
    ⟨.obj [("name", .str "n"), ("symbol", .str "s"), ("data_url", .str "u")],
      [.obj [("level", .num 1), ("md5", .str "d0f497c0f955e7edfb0278f446cdb6f8")]]⟩
    (by rfl)

/-! ## Claim C7 -/

/-- C7: for every header that passes validation, the load returns that very
header object as the table's head — every original field, the unknown ones
included, is intact, because the source stores `headerJSON` itself and not
the schema's parse output. -/
theorem head_preserved (h b : Json) (hvalid : HEAD_SCHEMA h = true) :
    (∀ l, ExtractBMSBody b = .ok l → LoadBMSTable h b = .ok ⟨h, l⟩) ∧
    (∀ t, LoadBMSTable h b = .ok t → t.head = h ∧
      ∀ fields k v, h = .obj fields → getField fields k = some v →
        ∃ hf, t.head = .obj hf ∧ getField hf k = some v) := by
  constructor
  · intro l hb
    simp [LoadBMSTable, hvalid, hb]
  · intro t ht
    unfold LoadBMSTable at ht
    rw [if_pos hvalid] at ht
    cases hb : ExtractBMSBody b with
    | error e => rw [hb] at ht; cases ht
    | ok l =>
      rw [hb] at ht
      cases ht
      exact ⟨rfl, fun fields k v hh hg => ⟨fields, by rw [hh], hg⟩⟩

/-- Witness for C7: a header with an undocumented `course` field is returned
verbatim as the head of the loaded table, the extra field still readable. -/
theorem head_preserved_witness :
    LoadBMSTable
        (.obj [("name", .str "n"), ("symbol", .str "s"), ("data_url", .str "u"),
          ("course", .num 7)]) (.arr []) =
      .ok ⟨.obj [("name", .str "n"), ("symbol", .str "s"), ("data_url", .str "u"),
        ("course", .num 7)], []⟩ ∧
    (⟨.obj [("name", .str "n"), ("symbol", .str "s"), ("data_url", .str "u"),
        ("course", .num 7)], []⟩ : RawTable).head =
      .obj [("name", .str "n"), ("symbol", .str "s"), ("data_url", .str "u"),
        ("course", .num 7)] ∧
    ∃ hf, (⟨.obj [("name", .str "n"), ("symbol", .str "s"), ("data_url", .str "u"),
        ("course", .num 7)], []⟩ : RawTable).head = .obj hf ∧
      getField hf "course" = some (.num 7) :=
  by
  have h := head_preserved
    (.obj [("name", .str "n"), ("symbol", .str "s"), ("data_url", .str "u"),
      ("course", .num 7)]) (.arr []) (by rfl)
  have h1 := h.1 [] rfl
  exact ⟨h1, (h.2 _ h1).1, (h.2 _ h1).2 _ "course" _ rfl rfl⟩

/-! ## Claim C5 -/

/-- C5 counterexample: a decoded header carrying the `dataLocation`
spelling (with `name` and `symbol` as strings) is rejected by the schema —
only `data_url` is accepted — although the claim says either spelling
suffices; with `data_url` the same header passes. -/
theorem head_schema_dataLocation_counterexample :
    HEAD_SCHEMA (.obj [("name", .str "n"), ("symbol", .str "s"),
      ("dataLocation", .str "u")]) = false ∧
    HEAD_SCHEMA (.obj [("name", .str "n"), ("symbol", .str "s"),
      ("data_url", .str "u")]) = true ∧
    LoadBMSTable (.obj [("name", .str "n"), ("symbol", .str "s"),
      ("dataLocation", .str "u")]) (.arr []) = .error .invalidHead :=
  ⟨rfl, rfl, rfl⟩

theorem strFieldOk_iff (fields : List (String × Json)) (k : String) :
    strFieldOk fields k = true ↔ ∃ s, getField fields k = some (.str s) := by
  unfold strFieldOk
  rcases hm : getField fields k with _ | j
  · simp
  · cases j <;> simp [hm]

theorem isNumOrStr_iff (x : Json) :
    isNumOrStr x = true ↔ (∃ q, x = .num q) ∨ (∃ s, x = .str s) := by
  cases x <;> simp [isNumOrStr]

theorem optLevelsOk_iff (fields : List (String × Json)) (k : String) :
    optLevelsOk fields k = true ↔
      (getField fields k = none ∨
        ∃ xs, getField fields k = some (.arr xs) ∧
          ∀ x ∈ xs, (∃ q, x = .num q) ∨ (∃ s, x = .str s)) := by
  unfold optLevelsOk
  rcases hm : getField fields k with _ | j
  · simp
  · cases j <;> simp [hm]
    case arr xs => simp [List.all_eq_true, isNumOrStr_iff]

/-- C5 (amended): the header validator accepts a decoded value exactly when
it is an object whose `name`, `symbol` and `data_url` fields are strings —
the `dataLocation` spelling is *not* accepted — and whose `levels` and
`level_order`, when present, are arrays whose elements are each a number or
a string; otherwise the load fails with the header validation error. -/
theorem head_schema_characterization (j b : Json) :
    (HEAD_SCHEMA j = true ↔
      ∃ fields, j = .obj fields ∧
        (∃ s, getField fields "name" = some (.str s)) ∧
        (∃ s, getField fields "symbol" = some (.str s)) ∧
        (∃ s, getField fields "data_url" = some (.str s)) ∧
        (getField fields "levels" = none ∨
          ∃ xs, getField fields "levels" = some (.arr xs) ∧
            ∀ x ∈ xs, (∃ q, x = .num q) ∨ (∃ s, x = .str s)) ∧
        (getField fields "level_order" = none ∨
          ∃ xs, getField fields "level_order" = some (.arr xs) ∧
            ∀ x ∈ xs, (∃ q, x = .num q) ∨ (∃ s, x = .str s))) ∧
    (HEAD_SCHEMA j = false → LoadBMSTable j b = .error .invalidHead) := by
  constructor
  · cases j with
    | obj fields =>
      simp only [HEAD_SCHEMA, Bool.and_eq_true, strFieldOk_iff, optLevelsOk_iff,
        Json.obj.injEq]
      constructor
      · rintro ⟨⟨⟨⟨h1, h2⟩, h3⟩, h4⟩, h5⟩
        exact ⟨fields, rfl, h1, h2, h3, h4, h5⟩
      · rintro ⟨fields2, rfl, h1, h2, h3, h4, h5⟩
        exact ⟨⟨⟨⟨h1, h2⟩, h3⟩, h4⟩, h5⟩
    | null => simp [HEAD_SCHEMA]
    | bool bb => simp [HEAD_SCHEMA]
    | num q => simp [HEAD_SCHEMA]
    | str s => simp [HEAD_SCHEMA]
    | arr l => simp [HEAD_SCHEMA]
  · intro hF
    simp [LoadBMSTable, hF]

/-- Witness for C5: the validator's acceptance of a complete concrete
header, and rejection of a non-object document. -/
theorem head_schema_characterization_witness :
    (∃ fields, Json.obj [("name", .str "n"), ("symbol", .str "s"), ("data_url", .str "u"),
        ("levels", .arr [.num 1, .str "2"])] = .obj fields ∧
      (∃ s, getField fields "name" = some (.str s)) ∧
      (∃ s, getField fields "symbol" = some (.str s)) ∧
      (∃ s, getField fields "data_url" = some (.str s)) ∧
      (getField fields "levels" = none ∨
        ∃ xs, getField fields "levels" = some (.arr xs) ∧
          ∀ x ∈ xs, (∃ q, x = .num q) ∨ (∃ s, x = .str s)) ∧
      (getField fields "level_order" = none ∨
        ∃ xs, getField fields "level_order" = some (.arr xs) ∧
          ∀ x ∈ xs, (∃ q, x = .num q) ∨ (∃ s, x = .str s))) ∧
    LoadBMSTable (.num 3) (.arr []) = .error .invalidHead :=
  ⟨(head_schema_characterization
      (.obj [("name", .str "n"), ("symbol", .str "s"), ("data_url", .str "u"),
        ("levels", .arr [.num 1, .str "2"])]) (.arr [])).1.mp (by rfl),
   (head_schema_characterization (.num 3) (.arr [])).2 rfl⟩

/-! ## Claim C3 -/

/-- C3: the retrying fetcher returns the response of the first attempt
whose status is exactly 200; it consults at most the first 3 attempts
(the default bound, attempts beyond the third never influence the result);
if all 3 attempts are non-200 it fails with the transport error carrying
the last observed status; and with the bound configured to zero it fails
with the zero-retries configuration error. -/
theorem fetch_with_retry_spec (responses : Nat → Response) (url : String) :
    (∀ i, i < 3 → (∀ j, j < i → (responses j).status ≠ 200) → (responses i).status = 200 →
      FetchWithRetry responses url 3 = .ok (responses i)) ∧
    (∀ g : Nat → Response, (∀ i, i < 3 → responses i = g i) →
      FetchWithRetry responses url 3 = FetchWithRetry g url 3) ∧
    ((∀ i, i < 3 → (responses i).status ≠ 200) →
      FetchWithRetry responses url 3 = .error (.failed url (responses 2).status)) ∧
    FetchWithRetry responses url 0 = .error (.zeroRetries url) := by
  refine ⟨?_, ?_, ?_, rfl⟩
  · intro i hi hprev h200
    interval_cases i
    · simp [FetchWithRetry, fetchLoop, h200]
    · simp [FetchWithRetry, fetchLoop, hprev 0 (by omega), h200]
    · simp [FetchWithRetry, fetchLoop, hprev 0 (by omega), hprev 1 (by omega), h200]
  · intro g hg
    have h0 := hg 0 (by omega)
    have h1 := hg 1 (by omega)
    have h2 := hg 2 (by omega)
    simp [FetchWithRetry, fetchLoop, h0, h1, h2]
  · intro hall
    simp [FetchWithRetry, fetchLoop, hall 0 (by omega), hall 1 (by omega), hall 2 (by omega)]

/-- Witness for C3: three consecutive 500 responses give the transport
error with status 500; a zero bound gives the configuration error; a 200 on
the second attempt is returned as-is. -/
theorem fetch_with_retry_spec_witness :
    FetchWithRetry (fun _ => ⟨500, "e"⟩) "http://x" 3 = .error (.failed "http://x" 500) ∧
    FetchWithRetry (fun _ => ⟨500, "e"⟩) "http://x" 0 = .error (.zeroRetries "http://x") ∧
    FetchWithRetry (fun i => if i = 1 then ⟨200, "ok"⟩ else ⟨500, "e"⟩) "http://x" 3 =
      .ok ⟨200, "ok"⟩ := by
  refine ⟨(fetch_with_retry_spec _ _).2.2.1 (fun i _ => by simp), ?_, ?_⟩
  · exact (fetch_with_retry_spec (fun _ => ⟨500, "e"⟩) "http://x").2.2.2
  · exact (fetch_with_retry_spec _ _).1 1 (by omega)
      (fun j hj => by interval_cases j; simp) (by simp)

/-! ## Claims C4 and C10 -/

theorem levelLoop_eq (charts : List LevelVal) :
    ∀ acc, levelLoop acc charts =
      acc ++ firstSeenDistinct (charts.filter (fun y => y ∉ acc)) := by
  induction charts with
  | nil => intro acc; simp [levelLoop, firstSeenDistinct]
  | cons c rest ih =>
    intro acc
    by_cases hc : c ∈ acc
    · rw [levelLoop, if_pos hc, ih acc]
      congr 2
      simp [List.filter, hc]
    · rw [levelLoop, if_neg hc, ih (acc ++ [c])]
      have hfc : rest.filter (fun y => y ∉ acc ++ [c]) =
          (rest.filter (fun y => y ∉ acc)).filter (fun y => y ≠ c) := by
        rw [List.filter_filter]
        apply List.filter_congr
        intro y _
        by_cases hy : y ∈ acc
        · simp [hy]
        · by_cases hyc : y = c <;> simp [hy, hyc]
      have hhd : (c :: rest).filter (fun y => y ∉ acc) =
          c :: rest.filter (fun y => y ∉ acc) := by
        simp [List.filter, hc]
      rw [hhd, firstSeenDistinct, hfc]
      simp

/-- C4: `getLevelOrder` returns `head.levels` verbatim whenever it is set
(unconditionally — no validation against the body); otherwise
`head.level_order` verbatim when set; otherwise the distinct level values
of the body in first-seen document order, with type-sensitive equality
(the number 1 and the string "1" are distinct levels). -/
theorem get_level_order_spec (t : BMSTable) :
    (∀ ls, t.head.levels = some ls → t.getLevelOrder = ls) ∧
    (∀ ls, t.head.levels = none → t.head.level_order = some ls → t.getLevelOrder = ls) ∧
    (t.head.levels = none → t.head.level_order = none →
      t.getLevelOrder = firstSeenDistinct (t.body.map (·.level))) ∧
    (LevelVal.num 1 ≠ LevelVal.str "1") ∧
    firstSeenDistinct [LevelVal.num 1, LevelVal.str "1"] =
      [LevelVal.num 1, LevelVal.str "1"] := by
  refine ⟨?_, ?_, ?_, by decide, by simp [firstSeenDistinct]⟩
  · intro ls h
    simp [BMSTable.getLevelOrder, h]
  · intro ls h1 h2
    simp [BMSTable.getLevelOrder, h1, h2]
  · intro h1 h2
    rw [BMSTable.getLevelOrder]
    rw [h1, h2]
    rw [levelLoop_eq _ []]
    simp

/-- Witness for C4: a set `levels` wins over `level_order` and the body; a
table with neither derives the type-sensitive first-seen order from its
body. -/
theorem get_level_order_spec_witness :
    (⟨⟨"n", "s", "u", some [.num 2], some [.num 9], []⟩,
      [⟨.str "7", []⟩]⟩ : BMSTable).getLevelOrder = [.num 2] ∧
    (⟨⟨"n", "s", "u", none, none, []⟩,
      [⟨.num 1, []⟩, ⟨.str "1", []⟩, ⟨.num 1, []⟩]⟩ : BMSTable).getLevelOrder =
      firstSeenDistinct [.num 1, .str "1", .num 1] := by
  constructor
  · exact (get_level_order_spec _).1 [.num 2] rfl
  · exact (get_level_order_spec _).2.2.1 rfl rfl

/-- C10: when `head.levels` is bound to the empty array, `getLevelOrder`
returns the empty sequence verbatim and never falls through to
`head.level_order` or to the body-derived order, because the guard tests
only presence (an empty array is truthy). -/
theorem empty_levels_no_fallthrough (t : BMSTable) (h : t.head.levels = some []) :
    t.getLevelOrder = [] := by
  simp [BMSTable.getLevelOrder, h]

/-- Witness for C10: the empty `levels` wins although `level_order` is set
and the body is nonempty. -/
theorem empty_levels_no_fallthrough_witness :
    (⟨⟨"n", "s", "u", some [], some [.num 5], []⟩,
      [⟨.num 3, []⟩]⟩ : BMSTable).getLevelOrder = [] :=
  empty_levels_no_fallthrough _ rfl

/-! ## Claim C8 -/

/-- C8 counterexample: the strip removes exactly one leading byte-order
marker, so for the text consisting of a byte-order marker followed by
`true`, prefixing one more marker does not decode to the same result: the
prefixed text still carries a marker after the strip and fails, while the
unprefixed text decodes to `true`. -/
theorem bom_double_strip_counterexample :
    BrokenBMSJSONParse JSONParse ('﻿' :: '﻿' :: ['t', 'r', 'u', 'e']) = none ∧
    BrokenBMSJSONParse JSONParse ('﻿' :: ['t', 'r', 'u', 'e']) = some (.bool true) :=
  ⟨rfl, rfl⟩

/-- C8 (amended): for every text that does not itself begin with a
byte-order marker, decoding the marker-prefixed text is identical to
decoding the bare text — for any underlying decoder, since only the strip
is involved; and the decoder performs no recovery beyond the strip, so when
the underlying decode of the stripped text fails, the whole decode fails. -/
theorem bom_strip_decode :
    (∀ (parse : List Char → Option Json) (s : List Char), startsWithBOM s = false →
      BrokenBMSJSONParse parse ('﻿' :: s) = BrokenBMSJSONParse parse s) ∧
    (∀ (parse : List Char → Option Json) (s : List Char),
      parse (if startsWithBOM s then s.drop 1 else s) = none →
      BrokenBMSJSONParse parse s = none) := by
  constructor
  · intro parse s h
    have hb : startsWithBOM ('\uFEFF' :: s) = true := rfl
    simp [BrokenBMSJSONParse, hb, h]
  · intro parse s h
    simpa [BrokenBMSJSONParse] using h

/-- Witness for C8: the bare text `1` does not begin with a byte-order
marker, and decoding it with one prepended gives the identical result. -/
theorem bom_strip_decode_witness :
    startsWithBOM ['1'] = false ∧
    BrokenBMSJSONParse JSONParse ('﻿' :: ['1']) = BrokenBMSJSONParse JSONParse ['1'] :=
  ⟨rfl, bom_strip_decode.1 JSONParse ['1'] rfl⟩

/-! ## Claim C9 -/

theorem ReadMetaTag_cons (c : Char) (rest : List Char) :
    ReadMetaTag (c :: rest) =
      match tryMatchAt (c :: rest) with
      | some v => some v
      | none => ReadMetaTag rest := rfl

theorem dropLit_self (p X : List Char) : dropLit p (p ++ X) = some X := by
  induction p with
  | nil => simp [dropLit]
  | cons c p ih => simp [dropLit, ih]

theorem dropWsRun_not_ws (c : Char) (rest : List Char) (h : jsRegexWs c = false) :
    dropWsRun (c :: rest) = c :: rest := by
  simp [dropWsRun, h]

theorem scanCapture_closes (v rest : List Char)
    (hv : ∀ c ∈ v, lineTerm c = false ∧ c ≠ '"') :
    scanCapture (v ++ '"' :: rest) = some v := by
  induction v with
  | nil => simp [scanCapture]
  | cons c v ih =>
    obtain ⟨hterm, hq⟩ := hv c (List.mem_cons_self c v)
    rw [List.cons_append]
    simp [scanCapture, hq, hterm, ih (fun d hd => hv d (List.mem_cons_of_mem c hd))]

theorem scanValue_cons_ne (c : Char) (rest : List Char) (hc : c ≠ '=') :
    scanValue (c :: rest) = if lineTerm c then none else scanValue rest := by
  simp [scanValue, hc]

theorem scanValue_follow (d : Char) (r : List Char) (hd : d ≠ '"') :
    scanValue ('=' :: d :: r) = scanValue (d :: r) := by
  have hlt : lineTerm '=' = false := by decide
  rw [scanValue.eq_def]
  simp only [reduceIte]
  split
  · rename_i rest2 heq
    injection heq with h1 h2
    exact absurd h1 hd
  · simp [hlt]

theorem scanValue_finds (mid v rest : List Char)
    (hterm : ∀ c ∈ mid, lineTerm c = false)
    (hpair : ∀ n, n < mid.length → dropLit ['=', '"'] (mid.drop n) = none)
    (hv : ∀ c ∈ v, lineTerm c = false ∧ c ≠ '"') :
    scanValue (mid ++ '=' :: '"' :: (v ++ '"' :: rest)) = some v := by
  induction mid with
  | nil =>
    rw [List.nil_append]
    simp [scanValue, scanCapture_closes v rest hv]
  | cons c mid ih =>
    have hterm0 : lineTerm c = false := hterm c (List.mem_cons_self c mid)
    have ihgoal : scanValue (mid ++ '=' :: '"' :: (v ++ '"' :: rest)) = some v :=
      ih (fun d hd => hterm d (List.mem_cons_of_mem c hd))
        (fun n hn => hpair (n + 1) (by simpa using Nat.succ_lt_succ hn))
    by_cases hc : c = '='
    · subst hc
      have h0 := hpair 0 (by simp)
      cases mid with
      | nil =>
        rw [List.cons_append, List.nil_append,
          scanValue_follow '=' _ (by decide)]
        exact ihgoal
      | cons d mid2 =>
        have hd : d ≠ '"' := by
          intro hdq
          subst hdq
          simp [dropLit] at h0
        rw [List.cons_append, List.cons_append]
        rw [scanValue_follow d _ hd]
        rw [List.cons_append] at ihgoal
        exact ihgoal
    · rw [List.cons_append, scanValue_cons_ne c _ hc, if_neg (by simp [hterm0])]
      exact ihgoal

theorem dropLit_extend_none (p : List Char) :
    ∀ (b : List Char) (c : Char) (Y : List Char), b ≠ [] → c ∉ p.drop 1 →
      dropLit p b = none → dropLit p (b ++ c :: Y) = none := by
  induction p with
  | nil =>
    intro b c Y hb hc h
    simp [dropLit] at h
  | cons q ps ih =>
    intro b c Y hb hc h
    cases b with
    | nil => exact absurd rfl hb
    | cons d bs =>
      by_cases hdq : d = q
      · subst hdq
        simp only [dropLit, if_pos rfl] at h
        rw [List.cons_append]
        simp only [dropLit, if_pos rfl]
        cases bs with
        | nil =>
          cases ps with
          | nil => simp [dropLit] at h
          | cons q2 ps2 =>
            have hq2 : c ≠ q2 := by
              intro he
              exact hc (by simp [he])
            simp [dropLit, hq2]
        | cons d2 bs2 =>
          refine ih (d2 :: bs2) c Y (by simp) ?_ h
          intro hm
          exact hc (List.drop_subset 1 ps hm)
      · rw [List.cons_append]
        simp [dropLit, hdq]

theorem dropLit_append_some (p : List Char) :
    ∀ (b Z b1 : List Char), dropLit p b = some b1 → dropLit p (b ++ Z) = some (b1 ++ Z) := by
  induction p with
  | nil =>
    intro b Z b1 h
    simp [dropLit] at h ⊢
    rw [h]
  | cons q ps ih =>
    intro b Z b1 h
    cases b with
    | nil => simp [dropLit] at h
    | cons d bs =>
      by_cases hdq : d = q
      · subst hdq
        simp only [dropLit, if_pos rfl] at h
        rw [List.cons_append]
        simp only [dropLit, if_pos rfl]
        exact ih bs Z b1 h
      · simp [dropLit, hdq] at h

theorem dropWsRun_append (s Y : List Char) :
    dropWsRun (s ++ Y) =
      if dropWsRun s = [] then dropWsRun Y else dropWsRun s ++ Y := by
  induction s with
  | nil => simp [dropWsRun]
  | cons c s ih =>
    rcases hw : jsRegexWs c with _ | _
    · simp [dropWsRun, hw]
    · simp [dropWsRun, hw, ih]

theorem dropWsRun_all_ws (s Y : List Char) (h : ∀ c ∈ s, jsRegexWs c = true) :
    dropWsRun (s ++ Y) = dropWsRun Y := by
  induction s with
  | nil => rfl
  | cons c s ih =>
    rw [List.cons_append]
    simp [dropWsRun, h c (List.mem_cons_self c s),
      ih (fun d hd => h d (List.mem_cons_of_mem c hd))]

theorem markerCheck_extend_none (b Y : List Char) (hb : b ≠ [])
    (h : markerCheck b = none) : markerCheck (b ++ '<' :: Y) = none := by
  unfold markerCheck at h ⊢
  cases hd : dropLit "<meta".data b with
  | none =>
    rw [dropLit_extend_none _ b '<' Y hb (by decide) hd]
    rfl
  | some b1 =>
    rw [hd, Option.some_bind] at h
    rw [dropLit_append_some _ b ('<' :: Y) b1 hd, Option.some_bind]
    cases hw : dropWs1 b1 with
    | none =>
      cases b1 with
      | nil =>
        rw [List.nil_append]
        have h2 : jsRegexWs '<' = false := by decide
        simp [dropWs1, h2]
      | cons w b1t =>
        have hwf : jsRegexWs w = false := by
          rcases hwb : jsRegexWs w with _ | _
          · rfl
          · simp [dropWs1, hwb] at hw
        rw [List.cons_append]
        simp [dropWs1, hwf]
    | some b2 =>
      rw [hw, Option.some_bind] at h
      cases b1 with
      | nil => simp [dropWs1] at hw
      | cons w b1t =>
        have hwt : jsRegexWs w = true := by
          rcases hwb : jsRegexWs w with _ | _
          · simp [dropWs1, hwb] at hw
          · rfl
        have hb2 : dropWsRun b1t = b2 := by
          simpa [dropWs1, hwt] using hw
        rw [List.cons_append]
        simp only [dropWs1, hwt, if_pos, Option.some_bind]
        rw [dropWsRun_append]
        by_cases hz : dropWsRun b1t = []
        · rw [if_pos hz]
          have h3 : jsRegexWs '<' = false := by decide
          rw [dropWsRun_not_ws '<' Y h3]
          have hm : "name=\"bmstable\"".data = 'n' :: "ame=\"bmstable\"".data := rfl
          simp [hm, dropLit]
        · rw [if_neg hz, hb2]
          exact dropLit_extend_none _ b2 '<' Y (hb2 ▸ hz) (by decide) (by rw [← hb2] at h ⊢; exact hb2 ▸ h)

theorem ReadMetaTag_skip (pre Y : List Char)
    (hpre : ∀ n, n < pre.length → markerCheck (pre.drop n) = none) :
    ReadMetaTag (pre ++ '<' :: Y) = ReadMetaTag ('<' :: Y) := by
  induction pre with
  | nil => rfl
  | cons c pre ih =>
    have h1 : markerCheck ((c :: pre) ++ '<' :: Y) = none :=
      markerCheck_extend_none (c :: pre) Y (by simp) (hpre 0 (by simp))
    have h2 : tryMatchAt ((c :: pre) ++ '<' :: Y) = none := by
      unfold tryMatchAt
      rw [h1]
      rfl
    rw [List.cons_append, ReadMetaTag_cons, ← List.cons_append, h2]
    exact ih (fun n hn => hpre (n + 1) (by simpa using Nat.succ_lt_succ hn))

theorem tryMatchAt_marker (ws mid v rest : List Char)
    (hws : ws ≠ []) (hwsAll : ∀ c ∈ ws, jsRegexWs c = true)
    (hterm : ∀ c ∈ mid, lineTerm c = false)
    (hpair : ∀ n, n < mid.length → dropLit ['=', '"'] (mid.drop n) = none)
    (hv : ∀ c ∈ v, lineTerm c = false ∧ c ≠ '"') :
    tryMatchAt ("<meta".data ++ (ws ++ ("name=\"bmstable\"".data ++
      (mid ++ '=' :: '"' :: (v ++ '"' :: rest))))) = some v := by
  unfold tryMatchAt markerCheck
  rw [dropLit_self, Option.some_bind]
  cases ws with
  | nil => exact absurd rfl hws
  | cons w wst =>
    have hw : jsRegexWs w = true := hwsAll w (List.mem_cons_self w wst)
    rw [List.cons_append]
    have h1 : dropWs1 (w :: (wst ++ ("name=\"bmstable\"".data ++
        (mid ++ '=' :: '"' :: (v ++ '"' :: rest))))) =
        some (dropWsRun (wst ++ ("name=\"bmstable\"".data ++
          (mid ++ '=' :: '"' :: (v ++ '"' :: rest))))) := by
      simp [dropWs1, hw]
    rw [h1, Option.some_bind]
    rw [dropWsRun_all_ws wst _ (fun d hd => hwsAll d (List.mem_cons_of_mem w hd))]
    have h2 : dropWsRun ("name=\"bmstable\"".data ++
        (mid ++ '=' :: '"' :: (v ++ '"' :: rest))) =
        "name=\"bmstable\"".data ++ (mid ++ '=' :: '"' :: (v ++ '"' :: rest)) := by
      have hn : jsRegexWs 'n' = false := by decide
      have hm : "name=\"bmstable\"".data ++ (mid ++ '=' :: '"' :: (v ++ '"' :: rest)) =
          'n' :: ("ame=\"bmstable\"".data ++ (mid ++ '=' :: '"' :: (v ++ '"' :: rest))) := rfl
      rw [hm, dropWsRun_not_ws _ _ hn]
    rw [h2, dropLit_self, Option.some_bind]
    exact scanValue_finds mid v rest hterm hpair hv

/-- C9 (amended): for every HTML text made of a prefix in which the marker
`<meta` + whitespace + `name="bmstable"` nowhere begins a complete
occurrence, that marker tag (with any nonempty whitespace run), and — with
no intervening line break and no earlier `="` character pair — a later
quoted attribute value, the extractor returns that first quoted value,
whichever attribute name carries it; a value separated from its marker by
a line break is not matched; and whenever no marker is matched, the load
fails with a missing-pointer error whose message begins with the offending
URL. -/
theorem read_meta_tag_spec :
    (∀ pre ws mid v rest : List Char,
      (∀ n, n < pre.length → markerCheck (pre.drop n) = none) →
      ws ≠ [] → (∀ c ∈ ws, jsRegexWs c = true) →
      (∀ c ∈ mid, lineTerm c = false) →
      (∀ n, n < mid.length → dropLit ['=', '"'] (mid.drop n) = none) →
      (∀ c ∈ v, lineTerm c = false ∧ c ≠ '"') →
      ReadMetaTag (pre ++ ("<meta".data ++ (ws ++ ("name=\"bmstable\"".data ++
        (mid ++ '=' :: '"' :: (v ++ '"' :: rest)))))) = some v) ∧
    (∀ url html : List Char, ReadMetaTag html = none →
      ∃ tail, LoadBMSTableHtml url html = .error (url ++ tail)) := by
  constructor
  · intro pre ws mid v rest hpre hws hwsAll hterm hpair hv
    have hsplit : "<meta".data ++ (ws ++ ("name=\"bmstable\"".data ++
        (mid ++ '=' :: '"' :: (v ++ '"' :: rest)))) =
        '<' :: ("meta".data ++ (ws ++ ("name=\"bmstable\"".data ++
          (mid ++ '=' :: '"' :: (v ++ '"' :: rest))))) := rfl
    rw [hsplit, ReadMetaTag_skip pre _ hpre, ← hsplit,
      hsplit, ReadMetaTag_cons, ← hsplit,
      tryMatchAt_marker ws mid v rest hws hwsAll hterm hpair hv]
  · intro url html h
    refine ⟨" returned HTML, but had no readable bmstable tag. Cannot parse table.".data, ?_⟩
    simp [LoadBMSTableHtml, h, noTagMessage]

/-- Witness for C9: a realistic wrapper page — a doctype, `<html>`,
`<head>` and an unrelated `<meta charset="utf-8">` before the marker —
yields `head.json` from the `content` attribute, and a pointerless page
makes the load fail with a message starting with the URL. -/
theorem read_meta_tag_spec_witness :
    ReadMetaTag ("<!DOCTYPE html><html><head><meta charset=\"utf-8\">".data ++
      ("<meta".data ++ ([' '] ++ ("name=\"bmstable\"".data ++
        (" content".data ++ '=' :: '"' ::
          ("head.json".data ++ '"' :: "></head>".data)))))) = some ("head.json".data) ∧
    ∃ tail, LoadBMSTableHtml "http://x".data "<html></html>".data =
      .error ("http://x".data ++ tail) := by
  constructor
  · exact read_meta_tag_spec.1 _ _ _ _ _
      (by decide) (by decide) (by decide) (by decide) (by decide) (by decide)
  · exact read_meta_tag_spec.2 "http://x".data "<html></html>".data (by rfl)

/-- C9 counterexample: with the quoted value on the line after the marker,
the extractor finds nothing — the regex `.` does not cross line
terminators — although the claim promises the first quoted value following
the marker; on one line the same document yields `head.json`. -/
theorem meta_tag_newline_counterexample :
    ReadMetaTag ("<meta name=\"bmstable\" content=\"head.json\">".data) =
      some ("head.json".data) ∧
    ReadMetaTag ("<meta name=\"bmstable\"\ncontent=\"head.json\">".data) = none :=
  ⟨rfl, rfl⟩
